import Mathlib

/-!
Verification of the scan-lifecycle engine of dragonfly-mainframe.

The definitions below are a shallow embedding of the Python sources:
  * src/mainframe/models/orm.py        (Scan, Rule, DownloadURL, Status)
  * src/mainframe/rules.py             (fetch_rules, parse_zipfile)
  * src/mainframe/database.py          (DatabaseStorage.lookup_packages, mark_reported)
  * src/mainframe/endpoints/package.py (submit_results, lookup_package_info)
  * src/mainframe/endpoints/job.py     (get_jobs)
  * src/mainframe/endpoints/report.py  (validate_package, report_package)
  * src/mainframe/job_cache.py         (JobCache: requeue_timeouts, refill,
                                        persist_all_results, fetch_job)

Modelling conventions:
  * timestamps are integers (Unix seconds, timezone-aware UTC in the source);
    nullable timestamp columns become `Option Int`;
  * `queued_at` is modelled as a plain `Int`: the ORM column is nullable but
    every creation path populates it (default_factory=datetime.now);
  * SQL three-valued logic: a comparison with a NULL column is not true, so
    rows with a NULL compared column drop out of WHERE filters;
  * the database is a list of `Scan` rows; the Rule table is the list of the
    rule names it contains (a Rule row carries only a unique name);
  * UUID primary keys become `Nat` identifiers.
-/

namespace Mainframe

/-- Package status, from models/orm.py (class Status). -/
inductive Status where
  | QUEUED
  | PENDING
  | FINISHED
  | FAILED
deriving DecidableEq, Repr

/-- One row of the scans table, from models/orm.py (class Scan).
Rules and download URLs are embedded by value: `rules` is the list of the
names of the associated Rule rows, `download_urls` the list of URL strings. -/
structure Scan where
  scan_id : Nat
  name : String
  version : String
  status : Status
  score : Option Int := none
  inspector_url : Option String := none
  rules : List String := []
  download_urls : List String := []
  queued_at : Int
  queued_by : Option String := none
  pending_at : Option Int := none
  pending_by : Option String := none
  finished_at : Option Int := none
  finished_by : Option String := none
  reported_at : Option Int := none
  reported_by : Option String := none
  fail_reason : Option String := none
  commit_hash : Option String := none
deriving DecidableEq, Repr

/-! ## Rule snapshot (src/mainframe/rules.py) -/

/-- The in-memory rule bundle, from rules.py (dataclass Rules). -/
structure Rules where
  rules_commit : String
  rules : List (String × String)
deriving DecidableEq, Repr

/-- The upstream GitHub repository as the two endpoints used by rules.py see
it: the text body served for commits/main, and the entries (path, contents)
of the zipball. -/
structure Upstream where
  commit : String
  zip_entries : List (String × String)
deriving DecidableEq, Repr

/-- Python dict assignment `d[k] = v`: replace the value in place if the key
exists, otherwise append (insertion order is preserved). -/
def dictInsert (d : List (String × String)) (k v : String) : List (String × String) :=
  if d.any (fun e => e.1 == k) then d.map (fun e => if e.1 == k then (k, v) else e)
  else d ++ [(k, v)]

/-- String suffix test, over the character lists (str.endswith in Python). -/
def strEndsWith (s sfx : String) : Bool :=
  sfx.data.isSuffixOf s.data

/-- str.removesuffix in Python: drop the suffix when present, over the
character lists. -/
def stripSuffixChars (s sfx : List Char) : List Char :=
  if sfx.isSuffixOf s then s.take (s.length - sfx.length) else s

/-- File stem of a zip entry path: last path component with the ".yara"
suffix removed, from rules.py (parse_zipfile loop body,
file_path.split("/")[-1].removesuffix(".yara")). -/
def yaraStem (path : String) : String :=
  String.mk (stripSuffixChars ((path.data.splitOn '/').getLastD path.data) ".yara".data)

/-- parse_zipfile from rules.py: keep entries whose path ends in ".yara" and
map the file stem to the contents. -/
def parse_zipfile (entries : List (String × String)) : List (String × String) :=
  entries.foldl
    (fun rules e =>
      if strEndsWith e.1 ".yara" then dictInsert rules (yaraStem e.1) e.2 else rules)
    []

/-- URL requested by fetch_commit_hash in rules.py. -/
def commitsUrl : String :=
  "https://api.github.com/repos/vipyrsec/security-intelligence/commits/main"

/-- URL requested by fetch_zipfile in rules.py. -/
def zipballUrl : String :=
  "https://api.github.com/repos/vipyrsec/security-intelligence/zipball/"

/-- fetch_commit_hash from rules.py: one GET against the commits endpoint;
returns the response text together with the request issued. -/
def fetch_commit_hash (upstream : Upstream) (access_token : String) : String × List String :=
  ((fun _ => upstream.commit) access_token, [commitsUrl])

/-- fetch_zipfile from rules.py: one GET against the zipball endpoint;
returns the archive entries together with the request issued. -/
def fetch_zipfile (upstream : Upstream) (access_token : String) : List (String × String) × List String :=
  ((fun _ => upstream.zip_entries) access_token, [zipballUrl])

/-- fetch_rules from rules.py. `access_token` is the configured
mainframe_settings.dragonfly_github_token. The second component records every
HTTP request issued to the upstream during the call. -/
def fetch_rules (access_token : String) (upstream : Upstream) : Rules × List String :=
  let ch := fetch_commit_hash upstream access_token
  let zf := fetch_zipfile upstream access_token
  (⟨ch.1, parse_zipfile zf.1⟩, ch.2 ++ zf.2)

/-! ## Read side (src/mainframe/database.py, endpoints/package.py lookup) -/

/-- Python truthiness of an optional string (`if name:`): None and the empty
string are falsy. -/
def pyTruthy (o : Option String) : Bool :=
  match o with
  | none => false
  | some s => s ≠ ""

/-- SQL filter `Scan.finished_at >= since`: NULL comparisons are not true, so
rows with a NULL finished_at are excluded. -/
def sinceFilter (since : Int) (s : Scan) : Bool :=
  match s.finished_at with
  | none => false
  | some f => since ≤ f

/-- Relation used for ORDER BY queued_at DESC. -/
def queuedDesc (s t : Scan) : Prop := t.queued_at ≤ s.queued_at

instance : DecidableRel queuedDesc := fun s t =>
  inferInstanceAs (Decidable (t.queued_at ≤ s.queued_at))

instance : IsTotal Scan queuedDesc := ⟨fun a b => le_total b.queued_at a.queued_at⟩

instance : IsTrans Scan queuedDesc := ⟨fun _ _ _ h h2 => le_trans h2 h⟩

/-- DatabaseStorage.lookup_packages from database.py: WHERE clauses guarded
by Python truthiness of each argument, ordered by queued_at descending.
`since` is a datetime there, truthy whenever present. -/
def lookup_packages (db : List Scan) (name version : Option String) (since : Option Int) :
    List Scan :=
  let q := db
  let q := if pyTruthy name then q.filter (fun s => s.name == name.getD "") else q
  let q := if pyTruthy version then q.filter (fun s => s.version == version.getD "") else q
  let q := match since with
    | some t => q.filter (sinceFilter t)
    | none => q
  q.insertionSort queuedDesc

/-- The invalid-combination guard of lookup_package_info in
endpoints/package.py: nn_name, nn_version, nn_since say whether the
respective query parameter was passed. -/
def invalidCombination (nn_name nn_version nn_since : Bool) : Bool :=
  (!nn_name && !nn_since) || (nn_version && nn_since)

/-- GET /package, lookup_package_info from endpoints/package.py (the
unpaginated branch). Returns an error for the disallowed parameter
combinations, else the filtered scans ordered by queued_at descending. -/
def lookup_package_info (db : List Scan) (name version : Option String) (since : Option Int) :
    Except Unit (List Scan) :=
  if invalidCombination name.isSome version.isSome since.isSome then .error ()
  else
    let q := db
    let q := if name.isSome then q.filter (fun s => s.name == name.getD "") else q
    let q := if version.isSome then q.filter (fun s => s.version == version.getD "") else q
    let q := match since with
      | some t => q.filter (sinceFilter t)
      | none => q
    .ok (q.insertionSort queuedDesc)

/-- The valid parameter combinations named by the spec: (name, version),
(name, since), (name), (since). Stated from the words of the spec, for
comparison with the code guard. -/
def validCombinationSpec (nn_name nn_version nn_since : Bool) : Bool :=
  (nn_name && nn_version && !nn_since) ||
  (nn_name && !nn_version && nn_since) ||
  (nn_name && !nn_version && !nn_since) ||
  (!nn_name && !nn_version && nn_since)

/-! ## Verdict ingestion (src/mainframe/endpoints/package.py, job_cache.py) -/

/-- A worker verdict: PackageScanResult or PackageScanResultFail from
models/schemas.py. In the success schema, commit is required, score defaults
to 0, inspector_url is optional, rules_matched defaults to the empty list. -/
inductive ScanResult where
  | success (name version commit : String) (score : Int) (inspector_url : Option String)
      (rules_matched : List String)
  | fail (name version reason : String)
deriving DecidableEq, Repr

/-- Name of the package the verdict is about. -/
def ScanResult.name : ScanResult → String
  | .success n _ _ _ _ _ => n
  | .fail n _ _ => n

/-- Version of the package the verdict is about. -/
def ScanResult.version : ScanResult → String
  | .success _ v _ _ _ _ => v
  | .fail _ v _ => v

/-- Errors raised by PUT /package (submit_results). -/
inductive SubmitError where
  | NotFound
  | Conflict
deriving DecidableEq, Repr

instance {ε α : Type} [DecidableEq ε] [DecidableEq α] : DecidableEq (Except ε α) := fun a b =>
  match a, b with
  | .error e, .error f => decidable_of_iff (e = f) (by simp)
  | .ok x, .ok y => decidable_of_iff (x = y) (by simp)
  | .error _, .ok _ => isFalse (by simp)
  | .ok _, .error _ => isFalse (by simp)

/-- The rule reconciliation of submit_results: the Rule rows whose name is in
rules_matched are attached first (in rule-table order), then a fresh Rule row
is created and attached for every matched name missing from the table. -/
def reconcileRules (ruleTable : List String) (rules_matched : List String) : List String :=
  ruleTable.filter (fun r => rules_matched.contains r) ++
    rules_matched.filter (fun r => !ruleTable.contains r)

/-- PUT /package, submit_results from endpoints/package.py. The state is the
scans table plus the rule table (list of rule names); `now` is the commit
time and `subject` the caller identity from the auth boundary. On error the
endpoint raises before any mutation, so the state is unchanged. -/
def submit_results (db : List Scan) (ruleTable : List String) (result : ScanResult)
    (now : Int) (subject : String) : Except SubmitError (List Scan × List String) :=
  match db.find? (fun s => s.name == result.name && s.version == result.version) with
  | none => .error .NotFound
  | some scan =>
    if scan.status = Status.FINISHED then .error .Conflict
    else
      match result with
      | .fail _ _ reason =>
        let scan' := { scan with status := Status.FAILED, fail_reason := some reason }
        .ok (db.map (fun s => if s.scan_id == scan.scan_id then scan' else s), ruleTable)
      | .success _ _ commit score inspector_url rules_matched =>
        let scan' := { scan with
          status := Status.FINISHED
          finished_at := some now
          inspector_url := inspector_url
          score := some score
          finished_by := some subject
          commit_hash := some commit
          rules := scan.rules ++ reconcileRules ruleTable rules_matched }
        .ok (db.map (fun s => if s.scan_id == scan.scan_id then scan' else s),
          ruleTable ++ rules_matched.filter (fun r => !ruleTable.contains r))

/-- One iteration of the persistence loop of JobCache.persist_all_results
(job_cache.py): `allRules` is the rule table as read once before the loop.
Unknown (name, version) and rows already FINISHED are skipped. The FAILED
branch sets only status and fail_reason; the FINISHED branch sets
finished_at, inspector_url, score, commit_hash and attaches the reconciled
rules (it does not touch finished_by). -/
def persistStep (allRules : List String) (now : Int) (db : List Scan) (result : ScanResult) :
    List Scan :=
  match db.find? (fun s => s.name == result.name && s.version == result.version) with
  | none => db
  | some scan =>
    if scan.status = Status.FINISHED then db
    else
      match result with
      | .fail _ _ reason =>
        let scan' := { scan with status := Status.FAILED, fail_reason := some reason }
        db.map (fun s => if s.scan_id == scan.scan_id then scan' else s)
      | .success _ _ commit score inspector_url rules_matched =>
        let scan' := { scan with
          status := Status.FINISHED
          finished_at := some now
          inspector_url := inspector_url
          score := some score
          commit_hash := some commit
          rules := scan.rules ++ reconcileRules allRules rules_matched }
        db.map (fun s => if s.scan_id == scan.scan_id then scan' else s)

/-- JobCache.persist_all_results from job_cache.py: drain the results queue
and apply each result in order against the scans table. The rule table is
read once before the loop and not refreshed in between. -/
def persist_all_results (db : List Scan) (allRules : List String) (results : List ScanResult)
    (now : Int) : List Scan :=
  results.foldl (persistStep allRules now) db

/-! ## Job dispatch (src/mainframe/endpoints/job.py, job_cache.py) -/

/-- The dispatch ordering ORDER BY pending_at NULLS FIRST, queued_at of the
get_jobs SQL and of the fetch_job query (Scan.pending_at.nulls_first(),
Scan.queued_at). -/
def jobLeB (s t : Scan) : Bool :=
  match s.pending_at, t.pending_at with
  | none, none => s.queued_at ≤ t.queued_at
  | none, some _ => true
  | some _, none => false
  | some p, some q => p < q || (p == q && s.queued_at ≤ t.queued_at)

/-- The dispatch ordering as a relation, for sorting. -/
def jobLe (s t : Scan) : Prop := jobLeB s t = true

instance : DecidableRel jobLe := fun s t => inferInstanceAs (Decidable (jobLeB s t = true))

instance : IsTotal Scan jobLe :=
  ⟨fun a b => by
    unfold jobLe jobLeB
    rcases a.pending_at with _ | p <;> rcases b.pending_at with _ | q <;> simp <;> omega⟩

instance : IsTrans Scan jobLe :=
  ⟨fun a b c hab hbc => by
    unfold jobLe jobLeB at *
    rcases ha : a.pending_at with _ | p <;> rcases hb : b.pending_at with _ | q <;>
      rcases hc : c.pending_at with _ | r <;> simp_all <;> omega⟩

/-- The WHERE clause shared by the get_jobs SQL and fetch_job: status QUEUED,
or status PENDING with pending_at < now - job_timeout. A NULL pending_at
fails the comparison (SQL three-valued logic). -/
def jobEligible (timeout now : Int) (s : Scan) : Bool :=
  s.status == Status.QUEUED ||
    (s.status == Status.PENDING &&
      match s.pending_at with
      | some p => p < now - timeout
      | none => false)

/-- The packages CTE of the get_jobs SQL: eligible rows in dispatch order,
LIMIT batch. -/
def selectJobs (db : List Scan) (timeout now : Int) (batch : Nat) : List Scan :=
  ((db.filter (jobEligible timeout now)).insertionSort jobLe).take batch

/-- The SET clause of the updated CTE: status PENDING, pending_at
CURRENT_TIMESTAMP, pending_by the caller subject. -/
def leaseUpdate (now : Int) (subject : String) (s : Scan) : Scan :=
  { s with status := Status.PENDING, pending_at := some now, pending_by := some subject }

/-- POST /jobs, get_jobs from endpoints/job.py. Returns the selected rows as
the query returns them (RETURNING packages.* yields the pre-update columns)
together with the scans table after the UPDATE. -/
def get_jobs (db : List Scan) (timeout now : Int) (batch : Nat) (subject : String) :
    List Scan × List Scan :=
  let packages := selectJobs db timeout now batch
  (packages,
    db.map (fun s =>
      if packages.any (fun t => t.scan_id == s.scan_id) then leaseUpdate now subject s else s))

/-- JobCache.fetch_job from job_cache.py (cache disabled): same WHERE and
ORDER BY as the dispatch SQL, session.scalar takes the first row, then only
status and pending_at are written back (pending_by is not touched). Returns
the mutated ORM object and the new table. -/
def fetch_job (db : List Scan) (timeout now : Int) : Option Scan × List Scan :=
  match (db.filter (jobEligible timeout now)).insertionSort jobLe with
  | [] => (none, db)
  | s :: _ =>
    let s' := { s with status := Status.PENDING, pending_at := some now }
    (some s', db.map (fun t => if t.scan_id == s.scan_id then s' else t))

/-! ## Job cache refill (src/mainframe/job_cache.py) -/

/-- The in-memory part of JobCache: the bounded ready queue (maxsize = the
configured size) and the pending list. -/
structure JobCache where
  scan_queue : List Scan
  maxsize : Nat
  pending : List Scan
deriving DecidableEq, Repr

/-- The loop body of JobCache.requeue_timeouts over the pending list, in list
order. Returns (scans put into the queue, timedout_scans, pending_scans).
A timed-out scan is requeued with status reset to QUEUED and pending_at
cleared. The source asserts pending_at is never None; getD makes such a row
count as not timed out. -/
def requeueLoop (now timeout : Int) : List Scan → List Scan × List Scan × List Scan
  | [] => ([], [], [])
  | s :: rest =>
    let r := requeueLoop now timeout rest
    if timeout < now - s.pending_at.getD now then
      let s' := { s with status := Status.QUEUED, pending_at := none }
      (s' :: r.1, s' :: r.2.1, r.2.2)
    else (r.1, r.2.1, s :: r.2.2)

/-- JobCache.requeue_timeouts from job_cache.py. The blocking put of each
timed-out scan is modelled as an append (it waits for room, then succeeds).
Returns the new cache state and the list of requeued scans. -/
def requeue_timeouts (now timeout : Int) (c : JobCache) : JobCache × List Scan :=
  let r := requeueLoop now timeout c.pending
  ({ c with scan_queue := c.scan_queue ++ r.1, pending := r.2.2 }, r.2.1)

/-- Relation used for ORDER BY queued_at (ascending) in the refill query. -/
def queuedAsc (s t : Scan) : Prop := s.queued_at ≤ t.queued_at

instance : DecidableRel queuedAsc := fun s t =>
  inferInstanceAs (Decidable (s.queued_at ≤ t.queued_at))

instance : IsTotal Scan queuedAsc := ⟨fun a b => le_total a.queued_at b.queued_at⟩

instance : IsTrans Scan queuedAsc := ⟨fun _ _ _ h h2 => le_trans h h2⟩

/-- The database query of JobCache.refill: QUEUED scans whose (name, version)
is not excluded, ordered by queued_at, LIMIT the queue capacity. -/
def refillQuery (db : List Scan) (exclude : List (String × String)) (cap : Nat) : List Scan :=
  ((db.filter (fun s =>
      s.status == Status.QUEUED && !(decide ((s.name, s.version) ∈ exclude)))).insertionSort
    queuedAsc).take cap

/-- The put_nowait loop of JobCache.refill: push fetched scans until the
queue is full; on queue.Full the remaining scans are dropped (break). -/
def put_nowait_all (c : JobCache) : List Scan → JobCache
  | [] => c
  | s :: rest =>
    if c.maxsize ≤ c.scan_queue.length then c
    else put_nowait_all { c with scan_queue := c.scan_queue ++ [s] } rest

/-- The scans JobCache.refill fetches from the database: the refill query
with scans_to_exclude built from the scans just requeued and the scans still
pending, and the capacity of the ready queue as the limit. -/
def refillFetch (db : List Scan) (now timeout : Int) (c : JobCache) : List Scan :=
  let r := requeue_timeouts now timeout c
  let requeued_scans_name_version := r.2.map (fun s => (s.name, s.version))
  let pending_name_version := r.1.pending.map (fun s => (s.name, s.version))
  let scans_to_exclude := requeued_scans_name_version ++ pending_name_version
  refillQuery db scans_to_exclude r.1.maxsize

/-- JobCache.refill from job_cache.py: requeue the timed-out pending scans,
then fetch up to capacity QUEUED scans excluding the (name, version) pairs
just requeued and those still pending, and push them until the queue fills. -/
def refill (db : List Scan) (now timeout : Int) (c : JobCache) : JobCache :=
  put_nowait_all (requeue_timeouts now timeout c).1 (refillFetch db now timeout c)

/-! ## Report validation (src/mainframe/endpoints/report.py) -/

/-- Errors surfaced by the report validation pipeline: PackageNotFound and
PackageAlreadyReported from custom_exceptions.py, and the 400 raised by
the inspector-url coalescing step. -/
inductive ReportError where
  | PackageNotFound (name version : String)
  | PackageAlreadyReported (name reported_version : String)
  | MissingInspectorUrl
deriving DecidableEq, Repr

/-- get_reported_version from endpoints/report.py: the first scan of the
sequence whose reported_at is set, if any. -/
def get_reported_version (scans : List Scan) : Option Scan :=
  scans.find? (fun s => s.reported_at.isSome)

/-- validate_package from endpoints/report.py: fail on an empty scan list,
then on any already-reported version (naming it), then look up the exact
(name, version). -/
def validate_package (name version : String) (scans : List Scan) : Except ReportError Scan :=
  if scans.isEmpty then .error (.PackageNotFound name version)
  else
    match get_reported_version scans with
    | some scan => .error (.PackageAlreadyReported scan.name scan.version)
    | none =>
      match scans.find? (fun s => s.name == name && s.version == version) with
      | none => .error (.PackageNotFound name version)
      | some scan => .ok scan

/-- Python `a or b` on optional strings: the first operand wins when truthy
(None and the empty string are falsy). -/
def pyOrStr (a b : Option String) : Option String := if pyTruthy a then a else b

/-- The url-coalescing step of report_package, from endpoints/report.py
(inspector_url = body.inspector_url or scan.inspector_url, then a 400 if the
result is None). -/
def coalesceInspectorUrl (body_url scan_url : Option String) : Except ReportError String :=
  match pyOrStr body_url scan_url with
  | none => .error .MissingInspectorUrl
  | some u => .ok u

/-- The validation prefix of report_package from endpoints/report.py: fetch
the scans of the name via DatabaseStorage.lookup_packages, run
validate_package, then coalesce the inspector url; the first raised error
propagates. -/
def report_validate (db : List Scan) (name version : String) (body_url : Option String) :
    Except ReportError (Scan × String) :=
  match validate_package name version (lookup_packages db (some name) none none) with
  | .error e => .error e
  | .ok scan =>
    match coalesceInspectorUrl body_url scan.inspector_url with
    | .error e => .error e
    | .ok url => .ok (scan, url)

/-! ## MarkReported (src/mainframe/database.py) -/

/-- DatabaseStorage.mark_reported from database.py: set reported_by to the
subject and reported_at to the current time. -/
def mark_reported (scan : Scan) (subject : String) (now : Int) : Scan :=
  { scan with reported_by := some subject, reported_at := some now }

/-! ## Stated invariants and concrete rows used to settle the claims -/

/-- Invariant 4 of the spec restricted to FINISHED: finished_at is non-null
whenever the status is FINISHED. -/
def finishedAtInv (s : Scan) : Prop := s.status = Status.FINISHED → s.finished_at ≠ none

/-- The part of spec invariant 3 the code maintains on every path: a FINISHED
scan has score, commit_hash and finished_at non-null. -/
def finishedFieldsInv (s : Scan) : Prop :=
  s.status = Status.FINISHED → s.score ≠ none ∧ s.commit_hash ≠ none ∧ s.finished_at ≠ none

/-- A freshly queued scan row (all nullable columns NULL). -/
def scanQ : Scan :=
  { scan_id := 0, name := "x", version := "1", status := Status.QUEUED, queued_at := 0 }

/-- A scan row in FAILED state carrying an earlier failure reason. -/
def scanFailedOld : Scan :=
  { scan_id := 3, name := "x", version := "1", status := Status.FAILED, queued_at := 0,
    fail_reason := some "old reason" }

/-- A reported finished scan of package pkg, version 1.0. -/
def scanPkg10 : Scan :=
  { scan_id := 1, name := "pkg", version := "1.0", status := Status.FINISHED, queued_at := 0,
    finished_at := some 40, reported_at := some 50, inspector_url := some "u1" }

/-- An unreported finished scan of package pkg, version 2.0. -/
def scanPkg20 : Scan :=
  { scan_id := 2, name := "pkg", version := "2.0", status := Status.FINISHED, queued_at := 10,
    finished_at := some 45, inspector_url := some "u2" }

/-- A finished scan row used to exercise the since filter. -/
def scanFin : Scan :=
  { scan_id := 4, name := "numpy", version := "1.24.3", status := Status.FINISHED,
    queued_at := 0, finished_at := some 30 }

/-- scanFailedOld after a second fail verdict overwrote the reason. -/
def scanFailedNew : Scan :=
  { scanFailedOld with status := Status.FAILED, fail_reason := some "new reason" }

/-- scanQ after an accepted fail verdict: FAILED, reason set, finished_at
still NULL. -/
def scanQFailed : Scan :=
  { scanQ with status := Status.FAILED, fail_reason := some "client crashed" }

/-- scanQ after a successful PUT /package submission. -/
def scanQDoneFull : Scan :=
  { scanQ with
    status := Status.FINISHED
    finished_at := some 30
    inspector_url := some "u"
    score := some 3
    finished_by := some "worker"
    commit_hash := some "c0ffee"
    rules := ["r1"] }

/-- scanQ after a success verdict persisted through the cache path: no
finished_by, no inspector_url. -/
def scanQDoneCache : Scan :=
  { scanQ with
    status := Status.FINISHED
    finished_at := some 30
    score := some 3
    commit_hash := some "c0ffee" }

instance (s : Scan) : Decidable (finishedAtInv s) :=
  inferInstanceAs (Decidable (s.status = Status.FINISHED → s.finished_at ≠ none))

instance (s : Scan) : Decidable (finishedFieldsInv s) :=
  inferInstanceAs (Decidable (s.status = Status.FINISHED →
    s.score ≠ none ∧ s.commit_hash ≠ none ∧ s.finished_at ≠ none))

/-- scanQ as fetch_job hands it out: PENDING with a fresh lease timestamp
but pending_by untouched. -/
def scanQLeased : Scan := { scanQ with status := Status.PENDING, pending_at := some 200 }

/-- A pending scan whose lease started at time 0 (scenario S2 of the spec). -/
def scanPend : Scan :=
  { scan_id := 5, name := "evilpkg", version := "0.1", status := Status.PENDING,
    queued_at := 0, pending_at := some 0, pending_by := some "A" }

/-- A small cache state holding scanPend in its pending list. -/
def demoCache : JobCache := { scan_queue := [], maxsize := 2, pending := [scanPend] }

end Mainframe

namespace Mainframe

/-! ## Theorems -/

/-- C9: a successful report (DatabaseStorage.mark_reported) sets reported_by
to the subject and reported_at to the time of the call and changes no other
field of the scan: identity, name, version, status, score, inspector_url,
rule associations, download URLs, the other timestamps and actor fields,
fail_reason and commit_hash are all unchanged. -/
theorem C9_mark_reported_frame (scan : Scan) (subject : String) (now : Int) :
    (mark_reported scan subject now).reported_by = some subject ∧
    (mark_reported scan subject now).reported_at = some now ∧
    (mark_reported scan subject now).scan_id = scan.scan_id ∧
    (mark_reported scan subject now).name = scan.name ∧
    (mark_reported scan subject now).version = scan.version ∧
    (mark_reported scan subject now).status = scan.status ∧
    (mark_reported scan subject now).score = scan.score ∧
    (mark_reported scan subject now).inspector_url = scan.inspector_url ∧
    (mark_reported scan subject now).rules = scan.rules ∧
    (mark_reported scan subject now).download_urls = scan.download_urls ∧
    (mark_reported scan subject now).queued_at = scan.queued_at ∧
    (mark_reported scan subject now).queued_by = scan.queued_by ∧
    (mark_reported scan subject now).pending_at = scan.pending_at ∧
    (mark_reported scan subject now).pending_by = scan.pending_by ∧
    (mark_reported scan subject now).finished_at = scan.finished_at ∧
    (mark_reported scan subject now).finished_by = scan.finished_by ∧
    (mark_reported scan subject now).fail_reason = scan.fail_reason ∧
    (mark_reported scan subject now).commit_hash = scan.commit_hash :=
  ⟨rfl, rfl, rfl, rfl, rfl, rfl, rfl, rfl, rfl, rfl, rfl, rfl, rfl, rfl, rfl, rfl, rfl, rfl⟩

/-- C8 counterexample: fetch_rules has no sentinel short-circuit. Called with
the access token "test" it still issues both upstream requests (the commits
endpoint and the zipball endpoint) and returns the upstream commit hash and
the parsed rules, not an empty snapshot with commit "test". -/
theorem C8_counterexample_no_sentinel :
    (fetch_rules "test" { commit := "abc123", zip_entries := [("m/rule1.yara", "rule body")] }).2
        = [commitsUrl, zipballUrl] ∧
    (fetch_rules "test" { commit := "abc123", zip_entries := [("m/rule1.yara", "rule body")] }).1
        = { rules_commit := "abc123", rules := [("rule1", "rule body")] } ∧
    (fetch_rules "test" { commit := "abc123", zip_entries := [("m/rule1.yara", "rule body")] }).1.rules_commit
        ≠ "test" ∧
    (fetch_rules "test" { commit := "abc123", zip_entries := [("m/rule1.yara", "rule body")] }).1.rules
        ≠ [] := by
  refine ⟨rfl, by decide, by decide, by decide⟩

/-- C8 amended: for every configured access token (the sentinel test value
included), fetch_rules contacts the upstream repository, issuing the
commits request and the zipball request, and returns the upstream head
commit hash together with the parsed .yara entries of the archive. -/
theorem C8_amended_fetch_rules_always_contacts_upstream (access_token : String)
    (upstream : Upstream) :
    fetch_rules access_token upstream =
      ({ rules_commit := upstream.commit, rules := parse_zipfile upstream.zip_entries },
        [commitsUrl, zipballUrl]) := rfl

/-- C5: GET /package fails with 400 exactly when the parameter combination
is none of (name, version), (name, since), (name), (since); equivalently,
exactly when name and since are both absent or version and since are both
present. -/
theorem C5_lookup_parameter_combinations (db : List Scan) (name version : Option String)
    (since : Option Int) :
    (lookup_package_info db name version since = Except.error () ↔
      validCombinationSpec name.isSome version.isSome since.isSome = false)
    ∧ (lookup_package_info db name version since = Except.error () ↔
      ((!name.isSome && !since.isSome) || (version.isSome && since.isSome)) = true) := by
  have hinv : ∀ a b c : Bool, invalidCombination a b c = !(validCombinationSpec a b c) := by decide
  have core : lookup_package_info db name version since = Except.error () ↔
      invalidCombination name.isSome version.isSome since.isSome = true := by
    unfold lookup_package_info
    cases h : invalidCombination name.isSome version.isSome since.isSome
    · rw [if_neg (by simp [h])]
      exact iff_of_false (by simp) (by simp)
    · rw [if_pos (by simp [h])]
      exact iff_of_true rfl rfl
  refine ⟨core.trans ?_, core.trans Iff.rfl⟩
  rw [hinv name.isSome version.isSome since.isSome]
  cases validCombinationSpec name.isSome version.isSome since.isSome <;> simp

/-- C5 witness: the lookup since=0, version=2.0 (scenario S5 of the spec) is
rejected. -/
theorem C5_witness :
    lookup_package_info [] none (some "2.0") (some (0 : Int)) = Except.error () :=
  (C5_lookup_parameter_combinations [] none (some "2.0") (some 0)).1.mpr (by decide)

/-- Rows of the table produced by a successful PUT /package satisfy P, given
that P holds of the rows of the input table and is preserved by the FAILED
update and by the FINISHED update of submit_results. -/
theorem submit_results_pres (P : Scan → Prop) (db : List Scan) (ruleTable : List String)
    (result : ScanResult) (now : Int) (subject : String)
    (hdb : ∀ s ∈ db, P s)
    (hfail : ∀ scan reason, P scan →
      P { scan with status := Status.FAILED, fail_reason := some reason })
    (hsucc : ∀ scan commit score url rm, P scan →
      P { scan with
          status := Status.FINISHED
          finished_at := some now
          inspector_url := url
          score := some score
          finished_by := some subject
          commit_hash := some commit
          rules := scan.rules ++ reconcileRules ruleTable rm }) :
    ∀ db2 rt2, submit_results db ruleTable result now subject = Except.ok (db2, rt2) →
      ∀ s ∈ db2, P s := by
  intro db2 rt2 hok s hs
  unfold submit_results at hok
  cases hfind : db.find? (fun s => s.name == result.name && s.version == result.version) with
  | none => rw [hfind] at hok; cases hok
  | some scan =>
    rw [hfind] at hok
    dsimp only at hok
    have hmem : scan ∈ db := List.mem_of_find?_eq_some hfind
    by_cases hst : scan.status = Status.FINISHED
    · rw [if_pos hst] at hok; cases hok
    · rw [if_neg hst] at hok
      cases result with
      | fail n v reason =>
        simp only [Except.ok.injEq, Prod.mk.injEq] at hok
        obtain ⟨hdb2, -⟩ := hok
        rw [← hdb2] at hs
        obtain ⟨t, ht, rfl⟩ := List.mem_map.1 hs
        by_cases hid : (t.scan_id == scan.scan_id) = true
        · simp only [hid, if_true]
          exact hfail scan reason (hdb scan hmem)
        · simp only [hid, if_false]
          exact hdb t ht
      | success n v commit score url rm =>
        simp only [Except.ok.injEq, Prod.mk.injEq] at hok
        obtain ⟨hdb2, -⟩ := hok
        rw [← hdb2] at hs
        obtain ⟨t, ht, rfl⟩ := List.mem_map.1 hs
        by_cases hid : (t.scan_id == scan.scan_id) = true
        · simp only [hid, if_true]
          exact hsucc scan commit score url rm (hdb scan hmem)
        · simp only [hid, if_false]
          exact hdb t ht

/-- Rows of the table produced by one iteration of the cache persistence
loop satisfy P, given that P holds of the input rows and is preserved by
the FAILED update and by the FINISHED update of persist_all_results. -/
theorem persistStep_pres (P : Scan → Prop) (allRules : List String) (now : Int)
    (r : ScanResult)
    (hfail : ∀ scan reason, P scan →
      P { scan with status := Status.FAILED, fail_reason := some reason })
    (hsucc : ∀ scan commit score url rm, P scan →
      P { scan with
          status := Status.FINISHED
          finished_at := some now
          inspector_url := url
          score := some score
          commit_hash := some commit
          rules := scan.rules ++ reconcileRules allRules rm })
    (db : List Scan) (hdb : ∀ s ∈ db, P s) :
    ∀ s ∈ persistStep allRules now db r, P s := by
  intro s hs
  unfold persistStep at hs
  cases hfind : db.find? (fun s => s.name == r.name && s.version == r.version) with
  | none => rw [hfind] at hs; exact hdb s hs
  | some scan =>
    rw [hfind] at hs
    dsimp only at hs
    have hmem : scan ∈ db := List.mem_of_find?_eq_some hfind
    by_cases hst : scan.status = Status.FINISHED
    · rw [if_pos hst] at hs; exact hdb s hs
    · rw [if_neg hst] at hs
      cases r with
      | fail n v reason =>
        obtain ⟨t, ht, rfl⟩ := List.mem_map.1 hs
        by_cases hid : (t.scan_id == scan.scan_id) = true
        · simp only [hid, if_true]
          exact hfail scan reason (hdb scan hmem)
        · simp only [hid, if_false]
          exact hdb t ht
      | success n v commit score url rm =>
        obtain ⟨t, ht, rfl⟩ := List.mem_map.1 hs
        by_cases hid : (t.scan_id == scan.scan_id) = true
        · simp only [hid, if_true]
          exact hsucc scan commit score url rm (hdb scan hmem)
        · simp only [hid, if_false]
          exact hdb t ht

/-- Rows of the table produced by a whole cache persistence cycle satisfy
P under the same conditions. -/
theorem persist_all_results_pres (P : Scan → Prop) (allRules : List String) (now : Int)
    (results : List ScanResult)
    (hfail : ∀ scan reason, P scan →
      P { scan with status := Status.FAILED, fail_reason := some reason })
    (hsucc : ∀ scan commit score url rm, P scan →
      P { scan with
          status := Status.FINISHED
          finished_at := some now
          inspector_url := url
          score := some score
          commit_hash := some commit
          rules := scan.rules ++ reconcileRules allRules rm }) :
    ∀ db, (∀ s ∈ db, P s) → ∀ s ∈ persist_all_results db allRules results now, P s := by
  induction results with
  | nil => intro db hdb; exact hdb
  | cons r rest ih =>
    intro db hdb
    unfold persist_all_results at ih ⊢
    simp only [List.foldl_cons]
    exact ih (persistStep allRules now db r) (persistStep_pres P allRules now r hfail hsucc db hdb)

end Mainframe


namespace Mainframe

/-- C2: PUT /package fails with NotFound when no scan has the verdict's
(name, version) (the endpoint raises before mutating, so the state is
unchanged); it fails with Conflict when the scan is already FINISHED (again
before any mutation); and a fail verdict for a scan already in FAILED state
is accepted, overwriting fail_reason with the new reason and leaving the
rule table and every other row unchanged. -/
theorem C2_submit_results_errors (db : List Scan) (ruleTable : List String)
    (result : ScanResult) (now : Int) (subject : String) :
    (db.find? (fun s => s.name == result.name && s.version == result.version) = none →
      submit_results db ruleTable result now subject = Except.error SubmitError.NotFound)
    ∧ (∀ scan,
        db.find? (fun s => s.name == result.name && s.version == result.version) = some scan →
        scan.status = Status.FINISHED →
        submit_results db ruleTable result now subject = Except.error SubmitError.Conflict)
    ∧ (∀ scan name version reason,
        db.find? (fun s => s.name == result.name && s.version == result.version) = some scan →
        scan.status = Status.FAILED → result = ScanResult.fail name version reason →
        submit_results db ruleTable result now subject =
          Except.ok (db.map (fun s => if s.scan_id == scan.scan_id
              then { scan with status := Status.FAILED, fail_reason := some reason } else s),
            ruleTable)) := by
  refine ⟨?_, ?_, ?_⟩
  · intro h
    unfold submit_results
    rw [h]
  · intro scan h hfin
    unfold submit_results
    rw [h]
    dsimp only
    rw [if_pos hfin]
  · intro scan name version reason h hst hres
    subst hres
    unfold submit_results
    rw [h]
    dsimp only
    rw [if_neg (by rw [hst]; exact fun hc => nomatch hc)]

/-- C2 witness: a second fail verdict for a scan already FAILED with an
older reason is accepted and the stored reason becomes the new one. -/
theorem C2_witness :
    submit_results [scanFailedOld] [] (ScanResult.fail "x" "1" "new reason") 5 "worker" =
      Except.ok ([scanFailedNew], []) := by
  have h := (C2_submit_results_errors [scanFailedOld] [] (ScanResult.fail "x" "1" "new reason")
      5 "worker").2.2 scanFailedOld "x" "1" "new reason" (by decide) (by decide) rfl
  rw [h]
  decide

/-- C3 counterexample: a fail verdict accepted by PUT /package moves the
scan to FAILED but leaves finished_at NULL, so a FAILED row need not have
finished_at set. -/
theorem C3_counterexample_failed_without_finished_at :
    submit_results [scanQ] [] (ScanResult.fail "x" "1" "client crashed") 30 "worker" =
      Except.ok ([scanQFailed], [])
    ∧ scanQFailed.status = Status.FAILED
    ∧ scanQFailed.finished_at = none := by
  refine ⟨by decide, by decide, by decide⟩

/-- C3 amended: finished_at is non-null whenever the status is FINISHED;
both verdict ingestion via PUT /package and the cache persistence cycle
preserve this (the FAILED branches of both leave finished_at untouched, so
a FAILED scan may have finished_at NULL). -/
theorem C3_amended_finished_at (db : List Scan) (ruleTable allRules : List String)
    (result : ScanResult) (results : List ScanResult) (now now2 : Int) (subject : String)
    (hdb : ∀ s ∈ db, finishedAtInv s) :
    (∀ db2 rt2, submit_results db ruleTable result now subject = Except.ok (db2, rt2) →
      ∀ s ∈ db2, finishedAtInv s)
    ∧ (∀ s ∈ persist_all_results db allRules results now2, finishedAtInv s) := by
  constructor
  · exact submit_results_pres finishedAtInv db ruleTable result now subject hdb
      (fun scan reason _ h => nomatch h)
      (fun scan commit score url rm _ _ => by simp)
  · exact persist_all_results_pres finishedAtInv allRules now2 results
      (fun scan reason _ h => nomatch h)
      (fun scan commit score url rm _ _ => by simp)
      db hdb

/-- C3 witness: the invariant instance produced by a concrete successful
submission: the resulting FINISHED row has finished_at set. -/
theorem C3_witness : finishedAtInv scanQDoneFull := by
  have h := (C3_amended_finished_at [scanQ] [] [] (ScanResult.success "x" "1" "c0ffee" 3
      (some "u") ["r1"]) [] 30 30 "worker" (by decide)).1
  exact h [scanQDoneFull] ["r1"] (by decide) scanQDoneFull (by decide)

/-- C4 counterexample: a success verdict persisted through the cache path
(JobCache.persist_all_results) produces a FINISHED scan whose finished_by is
NULL (the cache path never writes finished_by), and whose inspector_url is
NULL when the verdict carried none. -/
theorem C4_counterexample_cache_no_finished_by :
    persist_all_results [scanQ] [] [ScanResult.success "x" "1" "c0ffee" 3 none []] 30 =
      [scanQDoneCache]
    ∧ scanQDoneCache.status = Status.FINISHED
    ∧ scanQDoneCache.finished_by = none
    ∧ scanQDoneCache.inspector_url = none := by
  refine ⟨by decide, by decide, by decide, by decide⟩

/-- C4 amended: a FINISHED scan always has score, commit_hash and
finished_at non-null, and both ingestion paths preserve this; finished_by is
additionally guaranteed only by the PUT /package path, where every row of
the new table is either an untouched old row or carries finished_by equal to
the caller subject. The cache persistence path never writes finished_by, and
inspector_url is only as non-null as the verdict that produced it. -/
theorem C4_amended_finished_fields (db : List Scan) (ruleTable allRules : List String)
    (result : ScanResult) (results : List ScanResult) (now now2 : Int) (subject : String)
    (hdb : ∀ s ∈ db, finishedFieldsInv s) :
    (∀ db2 rt2, submit_results db ruleTable result now subject = Except.ok (db2, rt2) →
      ∀ s ∈ db2, finishedFieldsInv s)
    ∧ (∀ n v commit score url rm db2 rt2,
        submit_results db ruleTable (ScanResult.success n v commit score url rm) now subject
          = Except.ok (db2, rt2) →
        ∀ s ∈ db2, s ∈ db ∨ s.finished_by = some subject)
    ∧ (∀ s ∈ persist_all_results db allRules results now2, finishedFieldsInv s) := by
  refine ⟨?_, ?_, ?_⟩
  · exact submit_results_pres finishedFieldsInv db ruleTable result now subject hdb
      (fun scan reason _ h => nomatch h)
      (fun scan commit score url rm _ _ => by simp)
  · intro n v commit score url rm db2 rt2 hok s hs
    unfold submit_results at hok
    cases hfind : db.find? (fun s =>
        s.name == (ScanResult.success n v commit score url rm).name &&
        s.version == (ScanResult.success n v commit score url rm).version) with
    | none => rw [hfind] at hok; cases hok
    | some scan =>
      rw [hfind] at hok
      dsimp only at hok
      by_cases hst : scan.status = Status.FINISHED
      · rw [if_pos hst] at hok; cases hok
      · rw [if_neg hst] at hok
        simp only [Except.ok.injEq, Prod.mk.injEq] at hok
        obtain ⟨hdb2, -⟩ := hok
        rw [← hdb2] at hs
        obtain ⟨t, ht, rfl⟩ := List.mem_map.1 hs
        by_cases hid : (t.scan_id == scan.scan_id) = true
        · simp [hid]
        · simp only [hid, if_false]
          exact Or.inl ht
  · exact persist_all_results_pres finishedFieldsInv allRules now2 results
      (fun scan reason _ h => nomatch h)
      (fun scan commit score url rm _ _ => by simp)
      db hdb

/-- C4 witness: the invariant instance produced by a concrete cache
persistence run on a queued scan. -/
theorem C4_witness : finishedFieldsInv scanQDoneCache := by
  have h := (C4_amended_finished_fields [scanQ] [] [] (ScanResult.fail "x" "1" "r")
      [ScanResult.success "x" "1" "c0ffee" 3 none []] 30 30 "worker" (by decide)).2.2
  exact h scanQDoneCache (by decide)

end Mainframe

namespace Mainframe

/-- C6: the report validation surfaces the first failure in order: an empty
scan list for the name yields PackageNotFound; otherwise any already
reported version of the name yields PackageAlreadyReported naming that
version, independently of the requested version's existence and of the
inspector_url argument (so this check runs before both later checks); only
when no version is reported and the exact (name, version) is absent does
the result become PackageNotFound for the version. -/
theorem C6_report_validation_order (db : List Scan) (name version : String)
    (body_url : Option String) :
    (lookup_packages db (some name) none none = [] →
      report_validate db name version body_url =
        Except.error (ReportError.PackageNotFound name version))
    ∧ (∀ rscan, get_reported_version (lookup_packages db (some name) none none) = some rscan →
      report_validate db name version body_url =
        Except.error (ReportError.PackageAlreadyReported rscan.name rscan.version))
    ∧ (get_reported_version (lookup_packages db (some name) none none) = none →
      lookup_packages db (some name) none none ≠ [] →
      (lookup_packages db (some name) none none).find?
          (fun s => s.name == name && s.version == version) = none →
      report_validate db name version body_url =
        Except.error (ReportError.PackageNotFound name version)) := by
  refine ⟨?_, ?_, ?_⟩
  · intro h
    unfold report_validate validate_package
    rw [h]
    rfl
  · intro rscan h
    unfold report_validate validate_package
    cases hscans : lookup_packages db (some name) none none with
    | nil => rw [hscans] at h; cases h
    | cons a l =>
      rw [hscans] at h
      rw [h]
      rfl
  · intro hrep hne hfind
    unfold report_validate validate_package
    cases hscans : lookup_packages db (some name) none none with
    | nil => exact absurd hscans hne
    | cons a l =>
      rw [hscans] at hrep hfind
      rw [hrep, hfind]
      rfl

/-- C6 witness: scenario S4 of the spec: pkg 1.0 is reported, pkg 2.0 is
not; reporting pkg 2.0 fails with AlreadyReported naming pkg 1.0, even
though pkg 2.0 exists and has an inspector_url. -/
theorem C6_witness :
    report_validate [scanPkg10, scanPkg20] "pkg" "2.0" none =
      Except.error (ReportError.PackageAlreadyReported "pkg" "1.0") := by
  have h := (C6_report_validation_order [scanPkg10, scanPkg20] "pkg" "2.0" none).2.1
    scanPkg10 (by decide)
  exact h

/-- C10: with a since parameter, both GET /package and
DatabaseStorage.lookup_packages include a scan only if its finished_at is
non-null and at least since; a scan with NULL finished_at is excluded no
matter its queued_at, because the filter compares finished_at, not
queued_at. -/
theorem C10_since_filters_on_finished_at (db : List Scan) (name version : Option String)
    (t : Int) :
    (∀ l, lookup_package_info db name version (some t) = Except.ok l →
      ∀ s ∈ l, ∃ f, s.finished_at = some f ∧ t ≤ f)
    ∧ (∀ s ∈ lookup_packages db name version (some t), ∃ f, s.finished_at = some f ∧ t ≤ f)
    ∧ (∀ s ∈ db, s.finished_at = none → s ∉ lookup_packages db name version (some t)) := by
  have hfilter : ∀ (q : List Scan) (s : Scan), s ∈ q.filter (sinceFilter t) →
      ∃ f, s.finished_at = some f ∧ t ≤ f := by
    intro q s hs
    obtain ⟨-, hf⟩ := List.mem_filter.1 hs
    unfold sinceFilter at hf
    cases hfa : s.finished_at with
    | none => rw [hfa] at hf; cases hf
    | some f =>
      rw [hfa] at hf
      exact ⟨f, rfl, by simpa using hf⟩
  refine ⟨?_, ?_, ?_⟩
  · intro l hok s hs
    unfold lookup_package_info at hok
    by_cases hguard : invalidCombination name.isSome version.isSome (some t : Option Int).isSome
        = true
    · rw [if_pos (by simpa using hguard)] at hok
      cases hok
    · rw [if_neg (by simpa using hguard)] at hok
      simp only [Except.ok.injEq] at hok
      rw [← hok] at hs
      simp only [List.mem_insertionSort] at hs
      exact hfilter _ s hs
  · intro s hs
    unfold lookup_packages at hs
    simp only [List.mem_insertionSort] at hs
    exact hfilter _ s hs
  · intro s _ hnone hs
    unfold lookup_packages at hs
    simp only [List.mem_insertionSort] at hs
    obtain ⟨f, hf, -⟩ := hfilter _ s hs
    rw [hnone] at hf
    cases hf

/-- C10 witness: a finished scan with finished_at 30 is returned for
since 10, and the theorem yields its non-null finished timestamp. -/
theorem C10_witness : ∃ f, scanFin.finished_at = some f ∧ (10 : Int) ≤ f :=
  (C10_since_filters_on_finished_at [scanFin] (some "numpy") none 10).2.1 scanFin (by decide)

end Mainframe

namespace Mainframe

/-- The dispatch ordering is reflexive. -/
theorem jobLe_refl (s : Scan) : jobLe s s := by
  unfold jobLe jobLeB
  rcases s.pending_at with _ | p <;> simp

/-- C1 counterexample: the cache-disabled fetch_job hands out an eligible
scan, setting status to PENDING and pending_at to the current time, but it
never writes pending_by: the returned scan keeps its old pending_by (here
NULL), not the caller's auth subject (fetch_job does not even receive one). -/
theorem C1_counterexample_fetch_job_pending_by :
    (fetch_job [scanQ] 120 200).1 = some scanQLeased
    ∧ scanQLeased.status = Status.PENDING
    ∧ scanQLeased.pending_at = some 200
    ∧ scanQLeased.pending_by = none := by
  refine ⟨by decide, by decide, by decide, by decide⟩

/-- C1 amended: POST /jobs returns exactly the first up-to-batch eligible
scans (status QUEUED, or PENDING with pending_at < now - job_timeout) in the
order pending_at NULLS FIRST then queued_at, and the updated table gives
each of them status PENDING, pending_at = now and pending_by = the caller
subject while leaving unselected rows unchanged; the cache-disabled
fetch_job picks the first scan of the same eligible set in the same order
but updates only status and pending_at, leaving pending_by unchanged. -/
theorem C1_amended_dispatch (db : List Scan) (timeout now : Int) (batch : Nat)
    (subject : String) :
    ((get_jobs db timeout now batch subject).1 = selectJobs db timeout now batch)
    ∧ (selectJobs db timeout now batch).length
        = min batch (db.filter (jobEligible timeout now)).length
    ∧ (∀ s ∈ selectJobs db timeout now batch, s ∈ db ∧ jobEligible timeout now s = true)
    ∧ (selectJobs db timeout now batch).Sorted jobLe
    ∧ (∀ u ∈ db.filter (jobEligible timeout now), u ∉ selectJobs db timeout now batch →
        ∀ v ∈ selectJobs db timeout now batch, jobLe v u)
    ∧ (∀ s ∈ selectJobs db timeout now batch,
        leaseUpdate now subject s ∈ (get_jobs db timeout now batch subject).2)
    ∧ (∀ s ∈ db, (∀ u ∈ selectJobs db timeout now batch, u.scan_id ≠ s.scan_id) →
        s ∈ (get_jobs db timeout now batch subject).2)
    ∧ (∀ s db2, fetch_job db timeout now = (some s, db2) →
        ∃ s0, s0 ∈ db ∧ jobEligible timeout now s0 = true
          ∧ s = { s0 with status := Status.PENDING, pending_at := some now }
          ∧ s.pending_by = s0.pending_by
          ∧ ∀ u ∈ db.filter (jobEligible timeout now), jobLe s0 u) := by
  refine ⟨rfl, ?_, ?_, ?_, ?_, ?_, ?_, ?_⟩
  · unfold selectJobs
    rw [List.length_take, List.length_insertionSort]
  · intro s hs
    unfold selectJobs at hs
    have hsort := List.take_subset batch _ hs
    rw [List.mem_insertionSort] at hsort
    exact ⟨(List.mem_filter.1 hsort).1, (List.mem_filter.1 hsort).2⟩
  · exact List.Pairwise.sublist (List.take_sublist _ _) (List.sorted_insertionSort jobLe _)
  · intro u hu hnotin v hv
    unfold selectJobs at hnotin hv
    have hu2 : u ∈ (db.filter (jobEligible timeout now)).insertionSort jobLe :=
      (List.mem_insertionSort jobLe).2 hu
    rw [← List.take_append_drop batch ((db.filter (jobEligible timeout now)).insertionSort jobLe)]
      at hu2
    rcases List.mem_append.1 hu2 with hu3 | hu3
    · exact absurd hu3 hnotin
    · have hsorted := List.sorted_insertionSort jobLe (db.filter (jobEligible timeout now))
      rw [← List.take_append_drop batch ((db.filter (jobEligible timeout now)).insertionSort jobLe)]
        at hsorted
      exact ((List.pairwise_append.1 hsorted).2.2) v hv u hu3
  · intro s hs
    have hmem : s ∈ db := by
      have := List.take_subset batch _ hs
      rw [List.mem_insertionSort] at this
      exact (List.mem_filter.1 this).1
    have hany : (selectJobs db timeout now batch).any (fun t => t.scan_id == s.scan_id) = true :=
      List.any_eq_true.2 ⟨s, hs, by simp⟩
    have hupd : (fun u => if (selectJobs db timeout now batch).any
          (fun t => t.scan_id == u.scan_id) then leaseUpdate now subject u else u) s
        = leaseUpdate now subject s := by
      simp only [hany, if_true]
    rw [← hupd]
    exact List.mem_map_of_mem _ hmem
  · intro s hs hnot
    have hany : (selectJobs db timeout now batch).any (fun t => t.scan_id == s.scan_id)
        = false := by
      rw [List.any_eq_false]
      intro u hu
      simpa using hnot u hu
    have hupd : (fun u => if (selectJobs db timeout now batch).any
          (fun t => t.scan_id == u.scan_id) then leaseUpdate now subject u else u) s = s := by
      simp [hany]
    rw [← hupd]
    exact List.mem_map_of_mem _ hs
  · intro s db2 h
    unfold fetch_job at h
    cases hsort : (db.filter (jobEligible timeout now)).insertionSort jobLe with
    | nil => rw [hsort] at h; cases h
    | cons s0 rest =>
      rw [hsort] at h
      dsimp only at h
      have hs : s = { s0 with status := Status.PENDING, pending_at := some now } :=
        (Option.some.inj (congrArg Prod.fst h)).symm
      have hs0 : s0 ∈ db.filter (jobEligible timeout now) := by
        rw [← List.mem_insertionSort jobLe, hsort]
        exact List.mem_cons_self s0 rest
      refine ⟨s0, (List.mem_filter.1 hs0).1, (List.mem_filter.1 hs0).2, hs, by rw [hs], ?_⟩
      intro u hu
      have hu2 : u ∈ (db.filter (jobEligible timeout now)).insertionSort jobLe :=
        (List.mem_insertionSort jobLe).2 hu
      rw [hsort] at hu2
      rcases List.mem_cons.1 hu2 with rfl | hu3
      · exact jobLe_refl u
      · have hsorted := List.sorted_insertionSort jobLe (db.filter (jobEligible timeout now))
        rw [hsort] at hsorted
        exact List.rel_of_sorted_cons hsorted u hu3

/-- C1 witness: one queued scan, batch 1: the scan is selected and the
updated table holds it as PENDING at the lease time with the caller as
pending_by. -/
theorem C1_witness :
    leaseUpdate 200 "worker" scanQ ∈ (get_jobs [scanQ] 120 200 1 "worker").2 := by
  have h := (C1_amended_dispatch [scanQ] 120 200 1 "worker").2.2.2.2.2.1
  exact h scanQ (by decide)

end Mainframe

namespace Mainframe

/-- put_nowait_all only ever appends to the ready queue: pending and
capacity are untouched and the old queue is a prefix of the new one. -/
theorem put_nowait_all_state (l : List Scan) : ∀ c : JobCache,
    (put_nowait_all c l).pending = c.pending ∧ (put_nowait_all c l).maxsize = c.maxsize
    ∧ ∃ l2, (put_nowait_all c l).scan_queue = c.scan_queue ++ l2 := by
  induction l with
  | nil => exact fun c => ⟨rfl, rfl, [], by simp [put_nowait_all]⟩
  | cons s rest ih =>
    intro c
    unfold put_nowait_all
    by_cases h : c.maxsize ≤ c.scan_queue.length
    · rw [if_pos h]
      exact ⟨rfl, rfl, [], by simp⟩
    · rw [if_neg h]
      obtain ⟨h1, h2, l2, h3⟩ := ih { c with scan_queue := c.scan_queue ++ [s] }
      exact ⟨h1, h2, s :: l2, by rw [h3]; simp⟩

/-- Every pending scan whose lease timed out is requeued by the sweep, with
status reset to QUEUED and pending_at cleared. -/
theorem requeueLoop_mem_requeued (now timeout : Int) :
    ∀ (P : List Scan) (s : Scan), s ∈ P → timeout < now - s.pending_at.getD now →
      { s with status := Status.QUEUED, pending_at := none } ∈ (requeueLoop now timeout P).1 := by
  intro P
  induction P with
  | nil => intro s hs; cases hs
  | cons a rest ih =>
    intro s hs htime
    simp only [requeueLoop]
    rcases List.mem_cons.1 hs with rfl | hs2
    · rw [if_pos htime]
      exact List.mem_cons_self _ _
    · by_cases hc : timeout < now - a.pending_at.getD now
      · rw [if_pos hc]
        exact List.mem_cons_of_mem _ (ih s hs2 htime)
      · rw [if_neg hc]
        exact ih s hs2 htime

/-- Every scan the sweep keeps in the pending list is within its lease. -/
theorem requeueLoop_pending_within_lease (now timeout : Int) :
    ∀ (P : List Scan) (u : Scan), u ∈ (requeueLoop now timeout P).2.2 →
      ¬ (timeout < now - u.pending_at.getD now) := by
  intro P
  induction P with
  | nil =>
    intro u hu
    simp [requeueLoop] at hu
  | cons a rest ih =>
    intro u hu
    simp only [requeueLoop] at hu
    by_cases hc : timeout < now - a.pending_at.getD now
    · rw [if_pos hc] at hu
      exact ih u hu
    · rw [if_neg hc] at hu
      rcases List.mem_cons.1 hu with rfl | hu2
      · exact hc
      · exact ih u hu2

/-- C7: a pending scan whose lease age exceeds job_timeout at refill time is,
after the one refill cycle, in the ready queue with status QUEUED and
pending_at cleared and is no longer in the pending list (which the push
phase never touches); the database fetch of the same cycle returns at most
capacity scans, all QUEUED, none sharing a (name, version) with a requeued
or still-pending scan, ordered by queued_at. -/
theorem C7_refill_requeues_timed_out (db : List Scan) (now timeout : Int) (c : JobCache)
    (s : Scan) (p : Int) (hs : s ∈ c.pending) (hp : s.pending_at = some p)
    (ht : timeout < now - p) :
    ({ s with status := Status.QUEUED, pending_at := none }
        ∈ (refill db now timeout c).scan_queue)
    ∧ s ∉ (refill db now timeout c).pending
    ∧ (refill db now timeout c).pending = (requeue_timeouts now timeout c).1.pending
    ∧ (refill db now timeout c).maxsize = c.maxsize
    ∧ (refillFetch db now timeout c).length ≤ c.maxsize
    ∧ (∀ u ∈ refillFetch db now timeout c,
        u.status = Status.QUEUED
        ∧ ∀ v, (v ∈ (requeue_timeouts now timeout c).2
            ∨ v ∈ (requeue_timeouts now timeout c).1.pending) →
          (u.name, u.version) ≠ (v.name, v.version))
    ∧ (refillFetch db now timeout c).Sorted queuedAsc := by
  have htv : timeout < now - s.pending_at.getD now := by rw [hp]; exact ht
  obtain ⟨hpend, hmax, l2, hqueue⟩ :=
    put_nowait_all_state (refillFetch db now timeout c) (requeue_timeouts now timeout c).1
  have hfetch : refillFetch db now timeout c = refillQuery db
      ((requeue_timeouts now timeout c).2.map (fun u => (u.name, u.version))
        ++ (requeue_timeouts now timeout c).1.pending.map (fun u => (u.name, u.version)))
      (requeue_timeouts now timeout c).1.maxsize := rfl
  refine ⟨?_, ?_, ?_, ?_, ?_, ?_, ?_⟩
  · show _ ∈ (put_nowait_all (requeue_timeouts now timeout c).1
      (refillFetch db now timeout c)).scan_queue
    rw [hqueue]
    apply List.mem_append_left
    show _ ∈ c.scan_queue ++ (requeueLoop now timeout c.pending).1
    exact List.mem_append_right _ (requeueLoop_mem_requeued now timeout c.pending s hs htv)
  · show s ∉ (put_nowait_all (requeue_timeouts now timeout c).1
      (refillFetch db now timeout c)).pending
    rw [hpend]
    intro hmem
    exact requeueLoop_pending_within_lease now timeout c.pending s hmem htv
  · exact hpend
  · exact hmax
  · rw [hfetch]
    unfold refillQuery
    exact le_trans (List.length_take_le _ _) (le_refl _)
  · intro u hu
    rw [hfetch] at hu
    unfold refillQuery at hu
    have hu2 := List.take_subset _ _ hu
    rw [List.mem_insertionSort] at hu2
    obtain ⟨-, hcond⟩ := List.mem_filter.1 hu2
    simp only [Bool.and_eq_true, beq_iff_eq, Bool.not_eq_true', decide_eq_false_iff_not]
      at hcond
    refine ⟨hcond.1, ?_⟩
    intro v hv heq
    apply hcond.2
    rw [heq]
    rcases hv with hv | hv
    · exact List.mem_append_left _ (List.mem_map_of_mem _ hv)
    · exact List.mem_append_right _ (List.mem_map_of_mem _ hv)
  · rw [hfetch]
    unfold refillQuery
    exact List.Pairwise.sublist (List.take_sublist _ _) (List.sorted_insertionSort queuedAsc _)

/-- C7 witness: scenario S2 of the spec: a scan leased at time 0 with
job_timeout 120 is requeued by a refill at time 200 and sits in the ready
queue as QUEUED with no lease timestamp. -/
theorem C7_witness :
    { scanPend with status := Status.QUEUED, pending_at := none }
      ∈ (refill [] 200 120 demoCache).scan_queue :=
  (C7_refill_requeues_timed_out [] 200 120 demoCache scanPend 0 (by decide) (by decide)
    (by decide)).1

end Mainframe
